import Mathlib

/-!
Shallow embedding of `stpipeline/common/dataset.py` (`createDataset`) from the
st_pipeline repository, together with proofs about the claims of its
specification.

Modelling conventions:
  * An annotated read is the 7-tuple
    `(chrom, start, end, clear_name, mapping_quality, strand, UMI)` that
    `parseUniqueEvents_byCoordinate` yields per transcript; genomic
    coordinates and mapping qualities are `Int` (Python ints), names and the
    strand are `String`.
  * `parseUniqueEvents_byCoordinate` itself is not under `src/`; per the spec
    it yields, gene by gene, a dictionary from spot coordinates to the list
    of reads of that (gene, spot) bucket.  We model its output as the list
    `events : List GeneEvents`, and the existence of the input BAM file as a
    boolean parameter (`os.path.isfile`).
  * The four UMI-clustering functions (`countUMINaive`, `countUMIHierarchical`,
    `dedup_adj`, `dedup_dir_adj`) live in `stpipeline/common/clustering.py`,
    which is also not under `src/`; `createDataset` only selects one of them
    by name and calls it on the list of distinct UMIs of a neighborhood.
    They are parameters of the embedding (record `ClusterFuncs`).
  * `random.choice` (pick of a representative read among the reads sharing a
    surviving UMI) is modelled as an explicit function parameter `choose`.
  * Python's stable `sorted` is modelled with `List.insertionSort` (stable,
    executable); Python string comparison is lexicographic on the character
    sequence, modelled by the lexicographic order on `String.data`.
  * Python dict key order is modelled as first-occurrence (insertion) order.
  * File writes are modelled as data: the BED handle is the list of lines
    written so far, the final TSV is a list of lines; a file that was never
    opened/created is `none`.
-/

/-- One annotated transcript record:
`(chrom, start, end, clear_name, mapping_quality, strand, UMI)`. -/
structure AnnotatedRead where
  chrom : String
  start : Int
  end_ : Int
  clear_name : String
  mapping_quality : Int
  strand : String
  UMI : String
deriving DecidableEq, Repr

/-- Python tuple comparison key `(x[5], x[1])`, i.e. `(strand, start)`,
compared lexicographically; string comparison is lexicographic on the
characters. -/
def readKeyLE (a b : AnnotatedRead) : Bool :=
  decide (a.strand.data < b.strand.data) ||
    (a.strand == b.strand && decide (a.start ≤ b.start))

/-- The sort key order as a relation, for use with `List.insertionSort`. -/
def readLE (a b : AnnotatedRead) : Prop := readKeyLE a b = true

instance : DecidableRel readLE := fun a b =>
  inferInstanceAs (Decidable (readKeyLE a b = true))

/-- `sorted_reads = sorted(reads, key = lambda x: (x[5], x[1]))`. -/
def sortedReads (reads : List AnnotatedRead) : List AnnotatedRead :=
  reads.insertionSort readLE

/-- The neighborhood boundary test of the scan over adjacent sorted reads:
`abs(current_start - nextone_start) > umi_counting_offset or
current_strand != nextone_strand`. -/
def isBoundary (umi_counting_offset : Int) (current nextone : AnnotatedRead) : Bool :=
  decide (|current.start - nextone.start| > umi_counting_offset) ||
    !(current.strand == nextone.strand)

/-- The scan of `createDataset` over the sorted reads of one bucket.
`acc` is the content of `grouped_reads` (the current neighborhood); the loop
body appends `current` and flushes on a boundary; after the loop the last
read is appended and the final neighborhood is flushed unconditionally.
The result is the list of flushed neighborhoods in flush order.
(On an empty bucket the source would crash indexing `sorted_reads[-1]`;
we return no neighborhoods, and the assertion of `createDataset` then
fails exactly as the source fails.) -/
def scanGroups (offset : Int) (acc : List AnnotatedRead) :
    List AnnotatedRead → List (List AnnotatedRead)
  | [] => []
  | [lastone] => [acc ++ [lastone]]
  | current :: nextone :: rest =>
    if isBoundary offset current nextone then
      (acc ++ [current]) :: scanGroups offset [] (nextone :: rest)
    else
      scanGroups offset (acc ++ [current]) (nextone :: rest)

/-- Reference form of the same partition, without the accumulator: split a
list after every element whose successor lies across a boundary. -/
def splitRuns (offset : Int) : List AnnotatedRead → List (List AnnotatedRead)
  | [] => []
  | [a] => [[a]]
  | a :: b :: rest =>
    match splitRuns offset (b :: rest) with
    | [] => [[a]]
    | g :: gs =>
      if isBoundary offset a b then [a] :: g :: gs else (a :: g) :: gs

/-- Distinct elements of a list in first-occurrence order: the model of
`grouped_reads.keys()` for a dict built by appending in scan order. -/
def distinctKeys : List String → List String
  | [] => []
  | u :: rest => u :: (distinctKeys rest).filter (fun v => v ≠ u)

/-- The distinct UMIs of one neighborhood, in first-occurrence order. -/
def groupKeys (g : List AnnotatedRead) : List String :=
  distinctKeys (g.map (·.UMI))

/-- `grouped_reads[u]`: the reads of the neighborhood carrying UMI `u`,
in scan order. -/
def readsWithUMI (g : List AnnotatedRead) (u : String) : List AnnotatedRead :=
  g.filter (fun r => r.UMI == u)

/-- Flushing one neighborhood: run the selected clustering function on the
distinct UMIs, then pick one representative read per surviving UMI
(`random.choice`, modelled by the parameter `choose`). -/
def dedupGroup (group_umi_func : List String → Nat → List String)
    (choose : List AnnotatedRead → AnnotatedRead)
    (umi_allowed_mismatches : Nat) (g : List AnnotatedRead) : List AnnotatedRead :=
  (group_umi_func (groupKeys g) umi_allowed_mismatches).map
    (fun u_umi => choose (readsWithUMI g u_umi))

/-- The whole per-bucket computation of `unique_transcripts`: sort, scan into
neighborhoods, deduplicate each neighborhood, concatenate the
representatives in flush order. -/
def processBucket (group_umi_func : List String → Nat → List String)
    (choose : List AnnotatedRead → AnnotatedRead)
    (umi_allowed_mismatches : Nat) (umi_counting_offset : Int)
    (reads : List AnnotatedRead) : List AnnotatedRead :=
  ((scanGroups umi_counting_offset [] (sortedReads reads)).map
    (dedupGroup group_umi_func choose umi_allowed_mismatches)).flatten

/-- The failure modes of `createDataset`.  The source raises `RuntimeError`
in every case, distinguished by message; the Python `assert` raises
`AssertionError`.  An input-file check failure (`inputNotPresent`), an
unknown clustering-algorithm name (`incorrectClusteringAlgorithm`), an input
yielding zero (gene, spot) events (`noTranscripts`), and a failed per-bucket
assertion (`assertionError`). -/
inductive PipelineError where
  | inputNotPresent
  | incorrectClusteringAlgorithm
  | noTranscripts
  | assertionError
deriving DecidableEq, Repr

/-- The four UMI-clustering functions imported from
`stpipeline/common/clustering.py` (not under `src/`); each maps the list of
distinct UMIs of a neighborhood and the allowed mismatches to the list of
surviving UMIs. -/
structure ClusterFuncs where
  countUMINaive : List String → Nat → List String
  countUMIHierarchical : List String → Nat → List String
  dedup_adj : List String → Nat → List String
  dedup_dir_adj : List String → Nat → List String

/-- The strategy-name dispatch of `createDataset`: the four recognized names,
anything else is the configuration failure. -/
def selectGroupUMIFunc (fs : ClusterFuncs) (umi_cluster_algorithm : String) :
    Option (List String → Nat → List String) :=
  if umi_cluster_algorithm = "naive" then some fs.countUMINaive
  else if umi_cluster_algorithm = "hierarchical" then some fs.countUMIHierarchical
  else if umi_cluster_algorithm = "Adjacent" then some fs.dedup_adj
  else if umi_cluster_algorithm = "AdjacentBi" then some fs.dedup_dir_adj
  else none

/-- Spot-key formatting `"{0}x{1}".format(x, y)`. -/
def spotKey (x y : Int) : String :=
  toString x ++ "x" ++ toString y

/-- One row of the gene-major accumulation (`transcript_counts_by_spot`):
an association list from formatted spot key to deduplicated count, in
insertion order. -/
abbrev Row := List (String × Nat)

/-- Python dict assignment `d[k] = v`: replace the value in place if the key
is present, otherwise append the binding. -/
def dictSet (row : Row) (k : String) (v : Nat) : Row :=
  if row.any (fun p => p.1 == k) then
    row.map (fun p => if p.1 == k then (k, v) else p)
  else row ++ [(k, v)]

/-- The nine tab-separated columns of one BED trace line, in the fixed source
order: chrom, start, end, read name, mapping quality, strand, gene, x, y. -/
def bedFields (read : AnnotatedRead) (gene : String) (x y : Int) : List String :=
  [read.chrom, toString read.start, toString read.end_, read.clear_name,
   toString read.mapping_quality, read.strand, gene, toString x, toString y]

/-- One written BED trace line. -/
def bedLine (read : AnnotatedRead) (gene : String) (x y : Int) : String :=
  String.intercalate "\t" (bedFields read gene x y)

/-- The mutable state threaded through the scan of `createDataset`:
the counters, the lines written to the open BED handle so far, and the
containers feeding the data frame. -/
structure RunState where
  total_record : Nat := 0
  discarded_reads : Nat := 0
  bedLines : List String := []
  list_indexes : List String := []
  list_row_values : List Row := []
deriving Repr

/-- One gene's portion of the parsed input: the gene name and the spot
dictionary, each spot carrying the bucket of reads sharing (gene, spot). -/
abbrev GeneEvents := String × List ((Int × Int) × List AnnotatedRead)

/-- The inner loop of `createDataset` over the spots of one gene.  For each
bucket: recompute the count via `processBucket`, run the assertion
`transcript_count > 0 and transcript_count <= read_count` (failure aborts
with the state as already written), update the discarded counter, store the
count under the formatted spot key, write one BED line per surviving
transcript, and count the (gene, spot) event. -/
def processSpots (group_umi_func : List String → Nat → List String)
    (choose : List AnnotatedRead → AnnotatedRead)
    (umi_allowed_mismatches : Nat) (umi_counting_offset : Int) (gene : String) :
    List ((Int × Int) × List AnnotatedRead) → Row → RunState →
      Except RunState (Row × RunState)
  | [], row, st => .ok (row, st)
  | ((x, y), reads) :: rest, row, st =>
    let read_count := reads.length
    let unique_transcripts :=
      processBucket group_umi_func choose umi_allowed_mismatches umi_counting_offset reads
    let transcript_count := unique_transcripts.length
    if 0 < transcript_count ∧ transcript_count ≤ read_count then
      processSpots group_umi_func choose umi_allowed_mismatches umi_counting_offset gene
        rest
        (dictSet row (spotKey x y) transcript_count)
        { st with
          discarded_reads := st.discarded_reads + (read_count - transcript_count),
          bedLines := st.bedLines ++ unique_transcripts.map (fun r => bedLine r gene x y),
          total_record := st.total_record + 1 }
    else .error st

/-- The outer loop of `createDataset` over genes: process all spots of a
gene, then append the gene name and its finished spot-count row to the
data-frame containers. -/
def processGenes (group_umi_func : List String → Nat → List String)
    (choose : List AnnotatedRead → AnnotatedRead)
    (umi_allowed_mismatches : Nat) (umi_counting_offset : Int) :
    List GeneEvents → RunState → Except RunState RunState
  | [], st => .ok st
  | (gene, spots) :: rest, st =>
    match processSpots group_umi_func choose umi_allowed_mismatches umi_counting_offset
        gene spots [] st with
    | .error st' => .error st'
    | .ok (row, st') =>
      processGenes group_umi_func choose umi_allowed_mismatches umi_counting_offset rest
        { st' with
          list_indexes := st'.list_indexes ++ [gene],
          list_row_values := st'.list_row_values ++ [row] }

/-- The column set of the data frame built from the gene-major rows: the
union of the spot keys of all rows (first-occurrence order; pandas fixes its
own column order, which no claim depends on). -/
def allSpots (rows : List Row) : List String :=
  distinctKeys (rows.flatMap (fun row => row.map Prod.fst))

/-- One row of the transposed (spot-major) dense matrix: for spot key `s`,
the count of each gene-major row at `s`, absent pairs filled with `0`
(`fillna(0)` / `na_rep=0`). -/
def spotRowCells (rows : List Row) (s : String) : List Nat :=
  rows.map (fun row => ((List.lookup s row).getD 0))

/-- The dense spot-major table `counts_table.T` as a list of rows of cells. -/
def denseTable (rows : List Row) : List (List Nat) :=
  (allSpots rows).map (spotRowCells rows)

/-- The serialized TSV matrix (`counts_table.to_csv(..., sep="\t", na_rep=0)`):
a header line holding the empty index-label cell followed by the gene names,
then one line per spot, the spot key followed by its counts. -/
def serializeMatrix (genes : List String) (rows : List Row) : List String :=
  String.intercalate "\t" ("" :: genes) ::
    (allSpots rows).map
      (fun s => String.intercalate "\t" (s :: (spotRowCells rows s).map toString))

/-- Two's-complement reinterpretation of a natural number as a signed 32-bit
integer: reduce modulo 2 to the 32 and subtract 2 to the 32 from results at or
above 2 to the 31. -/
def toInt32 (n : Nat) : Int :=
  if n % 2 ^ 32 < 2 ^ 31 then ((n % 2 ^ 32 : Nat) : Int)
  else ((n % 2 ^ 32 : Nat) : Int) - 2 ^ 32

/-- `np.sum(counts_table.values, dtype=np.int32)`: sum accumulated with
wrap-around signed 32-bit arithmetic.  Wrap-around addition modulo 2 to the
32 is associative and commutative, so the accumulated result is the signed
reinterpretation of the exact total modulo 2 to the 32. -/
def npSumInt32 (cells : List Nat) : Int :=
  toInt32 cells.sum

/-- Arithmetic mean of a list of counts (`np.mean`), as an exact rational. -/
def meanQ (l : List Nat) : ℚ :=
  (l.sum : ℚ) / (l.length : ℚ)

/-- `ndarray.max()` (defined value on the nonempty arrays a successful run
produces). -/
def maxND (l : List Nat) : Nat := l.foldl max 0

/-- `ndarray.min()` (defined value on the nonempty arrays a successful run
produces). -/
def minND : List Nat → Nat
  | [] => 0
  | h :: t => t.foldl min h

/-- The caller-supplied statistics object (`qa_stats`, a `Stats` instance).
A field holds `none` while it has never been assigned by the aggregation
step under scrutiny.  The field names are the attribute names the source
assigns (including the source's spelling `avergage_gene_feature`); the two
standard-deviation quantities the source computes for logging also have
fields here so that the embedding can express whether they are ever
assigned. -/
structure RunStatistics where
  reads_after_duplicates_removal : Option Int := none
  unique_events : Option Nat := none
  barcodes_found : Option Nat := none
  genes_found : Option Nat := none
  duplicates_found : Option Nat := none
  max_genes_feature : Option Nat := none
  min_genes_feature : Option Nat := none
  max_reads_feature : Option Nat := none
  min_reads_feature : Option Nat := none
  max_reads_unique_event : Option Nat := none
  min_reads_unique_event : Option Nat := none
  avergage_gene_feature : Option ℚ := none
  average_reads_feature : Option ℚ := none
  std_reads_feature : Option ℚ := none
  std_genes_feature : Option ℚ := none
deriving DecidableEq, Repr

/-- The statistics block of `createDataset`: compute the summaries of the
finished transposed matrix and assign the named attributes of the caller's
statistics object.  The source assigns exactly the thirteen fields below;
`std_reads_feature` and `std_genes_feature` are computed (`np.std`) and
logged but never assigned to `qa_stats`. -/
def updateQaStats (qa : RunStatistics) (st : RunState) : RunStatistics :=
  let rows := st.list_row_values
  let spots := allSpots rows
  let table := denseTable rows
  let allCells := table.flatten
  let aggregated_spot_counts := table.map List.sum
  let aggregated_gene_counts := table.map (fun r => (r.filter (fun c => c ≠ 0)).length)
  { qa with
    reads_after_duplicates_removal := some (npSumInt32 allCells),
    unique_events := some st.total_record,
    barcodes_found := some spots.length,
    genes_found := some st.list_indexes.length,
    duplicates_found := some st.discarded_reads,
    max_genes_feature := some (maxND aggregated_gene_counts),
    min_genes_feature := some (minND aggregated_gene_counts),
    max_reads_feature := some (maxND aggregated_spot_counts),
    min_reads_feature := some (minND aggregated_spot_counts),
    max_reads_unique_event := some (maxND allCells),
    min_reads_unique_event := some (minND allCells),
    avergage_gene_feature := some (meanQ aggregated_gene_counts),
    average_reads_feature := some (meanQ aggregated_spot_counts) }

/-- The observable outcome of one `createDataset` call: the raised error (if
any), whether the annotated-read input stream was ever opened, the contents
of the BED trace file and of the matrix TSV file (`none` when the file was
never created), and the caller's statistics object after the call. -/
structure RunResult where
  error : Option PipelineError
  inputOpened : Bool
  bedFile : Option (List String)
  matrixFile : Option (List String)
  qa_stats : RunStatistics
deriving Repr

/-- The whole of `createDataset`:
check the input file, dispatch the clustering strategy, open the input and
the BED handle, run the scan, fail when zero (gene, spot) events were
produced, otherwise build, transpose and serialize the matrix and assign the
statistics.  The BED file exists (with the lines written so far) from the
moment processing starts; the matrix file is only written at the very end. -/
def createDataset (fs : ClusterFuncs) (choose : List AnnotatedRead → AnnotatedRead)
    (input_file_exists : Bool) (events : List GeneEvents) (qa_stats : RunStatistics)
    (umi_cluster_algorithm : String) (umi_allowed_mismatches : Nat)
    (umi_counting_offset : Int) : RunResult :=
  if !input_file_exists then
    { error := some .inputNotPresent, inputOpened := false,
      bedFile := none, matrixFile := none, qa_stats := qa_stats }
  else
    match selectGroupUMIFunc fs umi_cluster_algorithm with
    | none =>
      { error := some .incorrectClusteringAlgorithm, inputOpened := false,
        bedFile := none, matrixFile := none, qa_stats := qa_stats }
    | some group_umi_func =>
      match processGenes group_umi_func choose umi_allowed_mismatches
          umi_counting_offset events {} with
      | .error st =>
        { error := some .assertionError, inputOpened := true,
          bedFile := some st.bedLines, matrixFile := none, qa_stats := qa_stats }
      | .ok st =>
        if st.total_record = 0 then
          { error := some .noTranscripts, inputOpened := true,
            bedFile := some st.bedLines, matrixFile := none, qa_stats := qa_stats }
        else
          { error := none, inputOpened := true,
            bedFile := some st.bedLines,
            matrixFile := some (serializeMatrix st.list_indexes st.list_row_values),
            qa_stats := updateQaStats qa_stats st }

/-- All (gene, spot) buckets of the parsed input, flattened in processing
order: gene, spot coordinates, reads. -/
def bucketsOf (events : List GeneEvents) :
    List (String × ((Int × Int) × List AnnotatedRead)) :=
  events.flatMap (fun ge => ge.2.map (fun p => (ge.1, p)))

/-- The raw read count of one bucket. -/
def rawCount (b : String × ((Int × Int) × List AnnotatedRead)) : Nat :=
  b.2.2.length

/-- The deduplicated molecule count of one bucket
(the bucket's `transcript_count`). -/
def dedupCount (group_umi_func : List String → Nat → List String)
    (choose : List AnnotatedRead → AnnotatedRead)
    (umi_allowed_mismatches : Nat) (umi_counting_offset : Int)
    (b : String × ((Int × Int) × List AnnotatedRead)) : Nat :=
  (processBucket group_umi_func choose umi_allowed_mismatches umi_counting_offset b.2.2).length

/-- Total number of input reads over all buckets. -/
def totalReadsIn (events : List GeneEvents) : Nat :=
  ((bucketsOf events).map rawCount).sum

/-- Sum over all buckets of the deduplicated molecule counts. -/
def totalDedup (group_umi_func : List String → Nat → List String)
    (choose : List AnnotatedRead → AnnotatedRead)
    (umi_allowed_mismatches : Nat) (umi_counting_offset : Int)
    (events : List GeneEvents) : Nat :=
  ((bucketsOf events).map
    (dedupCount group_umi_func choose umi_allowed_mismatches umi_counting_offset)).sum

/-- Sum over all buckets of raw count minus deduplicated count. -/
def discardedSpec (group_umi_func : List String → Nat → List String)
    (choose : List AnnotatedRead → AnnotatedRead)
    (umi_allowed_mismatches : Nat) (umi_counting_offset : Int)
    (events : List GeneEvents) : Nat :=
  ((bucketsOf events).map
    (fun b => rawCount b -
      dedupCount group_umi_func choose umi_allowed_mismatches umi_counting_offset b)).sum

/-- The BED trace lines contributed by one bucket: one line per surviving
molecule, carrying the bucket's gene and spot. -/
def bedSpecOfBucket (group_umi_func : List String → Nat → List String)
    (choose : List AnnotatedRead → AnnotatedRead)
    (umi_allowed_mismatches : Nat) (umi_counting_offset : Int)
    (b : String × ((Int × Int) × List AnnotatedRead)) : List String :=
  (processBucket group_umi_func choose umi_allowed_mismatches umi_counting_offset b.2.2).map
    (fun r => bedLine r b.1 b.2.1.1 b.2.1.2)

/-- The whole BED trace content of a successful run, in write order. -/
def bedSpec (group_umi_func : List String → Nat → List String)
    (choose : List AnnotatedRead → AnnotatedRead)
    (umi_allowed_mismatches : Nat) (umi_counting_offset : Int)
    (events : List GeneEvents) : List String :=
  (bucketsOf events).flatMap
    (bedSpecOfBucket group_umi_func choose umi_allowed_mismatches umi_counting_offset)

/-- The gene names in input order (`list_indexes`). -/
def genesOf (events : List GeneEvents) : List String :=
  events.map Prod.fst

/-- The finished gene-major spot-count row of one gene. -/
def rowSpec (group_umi_func : List String → Nat → List String)
    (choose : List AnnotatedRead → AnnotatedRead)
    (umi_allowed_mismatches : Nat) (umi_counting_offset : Int)
    (spots : List ((Int × Int) × List AnnotatedRead)) : Row :=
  spots.map (fun p =>
    (spotKey p.1.1 p.1.2,
     (processBucket group_umi_func choose umi_allowed_mismatches umi_counting_offset p.2).length))

/-- The finished gene-major accumulation (`list_row_values`). -/
def rowsSpec (group_umi_func : List String → Nat → List String)
    (choose : List AnnotatedRead → AnnotatedRead)
    (umi_allowed_mismatches : Nat) (umi_counting_offset : Int)
    (events : List GeneEvents) : List Row :=
  events.map (fun ge =>
    rowSpec group_umi_func choose umi_allowed_mismatches umi_counting_offset ge.2)

/-- Sum of all entries of the dense serialized matrix. -/
def matrixCellsSum (rows : List Row) : Nat :=
  ((denseTable rows).flatten).sum

/-! ### Concrete instances used by the witnesses and counterexamples -/

/-- A concrete read used by the witnesses. -/
def readA : AnnotatedRead :=
  { chrom := "chr1", start := 100, end_ := 150, clear_name := "r1",
    mapping_quality := 60, strand := "+", UMI := "AAAA" }

/-- A concrete read duplicating the UMI of `readA` nearby. -/
def readB : AnnotatedRead :=
  { chrom := "chr1", start := 120, end_ := 170, clear_name := "r2",
    mapping_quality := 60, strand := "+", UMI := "AAAA" }

/-- A concrete read far away from the first two. -/
def readC : AnnotatedRead :=
  { chrom := "chr1", start := 600, end_ := 650, clear_name := "r3",
    mapping_quality := 60, strand := "+", UMI := "AAAA" }

/-- A concrete bucket of three reads. -/
def demoReads : List AnnotatedRead := [readA, readB, readC]

/-- A concrete parsed input: one gene, one spot, three reads. -/
def demoEvents : List GeneEvents := [("GeneA", [((1, 2), demoReads)])]

/-- A concrete parsed input that yields zero (gene, spot) events: the gene
stream exists but contains no usable records. -/
def demoEmptyEvents : List GeneEvents := [("GeneA", [])]

/-- A concrete clustering function satisfying the contract of the four
strategies: it returns the distinct tags unchanged (a non-empty duplicate-free
subset of its input whenever the input is non-empty). -/
def demoCluster : List String → Nat → List String :=
  fun keys _ => distinctKeys keys

/-- A concrete `ClusterFuncs` record built from `demoCluster`. -/
def demoFuncs : ClusterFuncs :=
  { countUMINaive := demoCluster, countUMIHierarchical := demoCluster,
    dedup_adj := demoCluster, dedup_dir_adj := demoCluster }

/-- Default read (only used to make the representative pick total). -/
def defaultRead : AnnotatedRead :=
  { chrom := "", start := 0, end_ := 0, clear_name := "",
    mapping_quality := 0, strand := "", UMI := "" }

/-- A concrete deterministic representative pick standing in for
`random.choice`. -/
def demoChoose : List AnnotatedRead → AnnotatedRead :=
  fun l => l.headD defaultRead

/-- A fresh statistics object with no field ever assigned. -/
def qa0 : RunStatistics := {}

/-- The interface contract of a UMI-clustering strategy assumed by claim C3:
on a non-empty list of distinct tags it returns a non-empty duplicate-free
subset of those tags. -/
def ClusterContract (f : List String → Nat → List String) : Prop :=
  ∀ keys m, keys ≠ [] →
    f keys m ≠ [] ∧ (f keys m).Nodup ∧ ∀ u ∈ f keys m, u ∈ keys

/-! ### Properties of the neighborhood partition -/

theorem splitRuns_shape (offset : Int) (a : AnnotatedRead) (rest : List AnnotatedRead) :
    ∃ t gs, splitRuns offset (a :: rest) = (a :: t) :: gs := by
  induction rest generalizing a with
  | nil => exact ⟨[], [], rfl⟩
  | cons b rest ih =>
    obtain ⟨t, gs, h⟩ := ih b
    by_cases hb : isBoundary offset a b = true
    · exact ⟨[], (b :: t) :: gs, by simp [splitRuns, h, hb]⟩
    · exact ⟨b :: t, gs, by simp [splitRuns, h, hb]⟩

theorem scanGroups_splitRuns (offset : Int) :
    ∀ (l : List AnnotatedRead) (acc : List AnnotatedRead), l ≠ [] →
      ∃ g gs, splitRuns offset l = g :: gs ∧
        scanGroups offset acc l = (acc ++ g) :: gs := by
  intro l
  induction l with
  | nil => intro acc h; exact absurd rfl h
  | cons a rest ih =>
    intro acc _
    match rest with
    | [] => exact ⟨[a], [], rfl, rfl⟩
    | b :: rest' =>
      obtain ⟨g, gs, hsp, hsc⟩ := ih acc (by simp)
      by_cases hb : isBoundary offset a b = true
      · obtain ⟨g0, gs0, hsp0, hsc0⟩ :=
          (by exact ih ([] : List AnnotatedRead) (by simp) :
            ∃ g gs, splitRuns offset (b :: rest') = g :: gs ∧
              scanGroups offset [] (b :: rest') = ([] ++ g) :: gs)
        refine ⟨[a], g0 :: gs0, ?_, ?_⟩
        · simp [splitRuns, hsp0, hb]
        · simp [scanGroups, hb, hsc0]
      · obtain ⟨g0, gs0, hsp0, hsc0⟩ :=
          (by exact ih (acc ++ [a]) (by simp) :
            ∃ g gs, splitRuns offset (b :: rest') = g :: gs ∧
              scanGroups offset (acc ++ [a]) (b :: rest') = ((acc ++ [a]) ++ g) :: gs)
        refine ⟨a :: g0, gs0, ?_, ?_⟩
        · simp [splitRuns, hsp0, hb]
        · simp [scanGroups, hb, hsc0]

/-- With an empty accumulator the scan of the source computes exactly the
reference partition. -/
theorem scanGroups_eq_splitRuns (offset : Int) (l : List AnnotatedRead) :
    scanGroups offset [] l = splitRuns offset l := by
  match l with
  | [] => rfl
  | a :: rest =>
    obtain ⟨g, gs, hsp, hsc⟩ := scanGroups_splitRuns offset (a :: rest) [] (by simp)
    rw [hsc, hsp]; simp

/-- The neighborhoods concatenate back to the scanned sequence: no read is
dropped or duplicated by the partition. -/
theorem splitRuns_flatten (offset : Int) :
    ∀ l : List AnnotatedRead, (splitRuns offset l).flatten = l := by
  intro l
  induction l with
  | nil => rfl
  | cons a rest ih =>
    match rest with
    | [] => rfl
    | b :: rest' =>
      obtain ⟨t, gs, hsp⟩ := splitRuns_shape offset b rest'
      by_cases hb : isBoundary offset a b = true
      · simp only [splitRuns, hsp, hb, if_pos]
        have := ih
        rw [hsp] at this
        simpa using this
      · simp only [splitRuns, hsp, hb, if_neg, Bool.false_eq_true, not_false_iff]
        have := ih
        rw [hsp] at this
        simp_all [List.flatten_cons]

/-- Every produced neighborhood is non-empty. -/
theorem splitRuns_ne_nil (offset : Int) :
    ∀ (l : List AnnotatedRead) (g : List AnnotatedRead),
      g ∈ splitRuns offset l → g ≠ [] := by
  intro l
  induction l with
  | nil => intro g hg; simp [splitRuns] at hg
  | cons a rest ih =>
    intro g hg
    match rest with
    | [] =>
      simp only [splitRuns, List.mem_singleton] at hg
      simp [hg]
    | b :: rest' =>
      obtain ⟨t, gs, hsp⟩ := splitRuns_shape offset b rest'
      by_cases hb : isBoundary offset a b = true <;>
        simp only [splitRuns, hsp, hb, if_pos, if_neg, Bool.false_eq_true,
          not_false_iff, List.mem_cons] at hg
      · rcases hg with h | h | h
        · simp [h]
        · exact ih g (by rw [hsp]; simp [h])
        · exact ih g (by rw [hsp]; simp [h])
      · rcases hg with h | h
        · simp [h]
        · exact ih g (by rw [hsp]; simp [h])

/-- Inside one neighborhood no adjacent pair crosses a boundary: consecutive
reads share the strand and lie within the start-position offset. -/
theorem splitRuns_chain_within (offset : Int) :
    ∀ (l : List AnnotatedRead) (g : List AnnotatedRead), g ∈ splitRuns offset l →
      List.Chain' (fun a b => isBoundary offset a b = false) g := by
  intro l
  induction l with
  | nil => intro g hg; simp [splitRuns] at hg
  | cons a rest ih =>
    intro g hg
    match rest with
    | [] =>
      simp only [splitRuns, List.mem_singleton] at hg
      simp [hg]
    | b :: rest' =>
      obtain ⟨t, gs, hsp⟩ := splitRuns_shape offset b rest'
      by_cases hb : isBoundary offset a b = true <;>
        simp only [splitRuns, hsp, hb, if_pos, if_neg, Bool.false_eq_true,
          not_false_iff, List.mem_cons] at hg
      · rcases hg with h | h | h
        · simp [h]
        · exact ih g (by rw [hsp]; simp [h])
        · exact ih g (by rw [hsp]; simp [h])
      · rcases hg with h | h
        · subst h
          have hchain : List.Chain' (fun a b => isBoundary offset a b = false) (b :: t) :=
            ih (b :: t) (by rw [hsp]; simp)
          exact List.Chain'.cons (by simpa using hb) hchain
        · exact ih g (by rw [hsp]; simp [h])

/-- Between two consecutive neighborhoods the boundary condition holds: the
last read of a neighborhood and the first read of the next one differ in
strand or lie more than the offset apart. -/
theorem splitRuns_junction (offset : Int) :
    ∀ l : List AnnotatedRead,
      List.Chain'
        (fun g g' => ∀ a ∈ g.getLast?, ∀ b ∈ g'.head?, isBoundary offset a b = true)
        (splitRuns offset l) := by
  intro l
  induction l with
  | nil => simp [splitRuns]
  | cons a rest ih =>
    match rest with
    | [] => simp [splitRuns]
    | b :: rest' =>
      obtain ⟨t, gs, hsp⟩ := splitRuns_shape offset b rest'
      rw [hsp] at ih
      by_cases hb : isBoundary offset a b = true
      · simp only [splitRuns, hsp, hb, if_pos]
        refine List.Chain'.cons ?_ ih
        intro x hx y hy
        simp only [List.getLast?_singleton, Option.mem_def, Option.some_inj] at hx
        simp only [List.head?_cons, Option.mem_def, Option.some_inj] at hy
        rw [← hx, ← hy]; exact hb
      · simp only [splitRuns, hsp, hb, if_neg, Bool.false_eq_true, not_false_iff]
        match gs, ih with
        | [], _ => simp
        | g' :: gs', ih =>
          rw [List.chain'_cons] at ih ⊢
          refine ⟨?_, ih.2⟩
          intro x hx y hy
          exact ih.1 x (by simpa [List.getLast?_cons_cons] using hx) y hy

/-- The last element of the concatenation of a list of non-empty lists is
the last element of the last list. -/
theorem flatten_getLast? {α : Type} :
    ∀ gs : List (List α), (∀ g ∈ gs, g ≠ []) → gs ≠ [] →
      ∃ glast, gs.getLast? = some glast ∧ gs.flatten.getLast? = glast.getLast? := by
  intro gs
  induction gs with
  | nil => intro _ h; exact absurd rfl h
  | cons g gs ih =>
    intro hne _
    match gs with
    | [] => exact ⟨g, rfl, by simp⟩
    | g' :: gs' =>
      obtain ⟨glast, h1, h2⟩ := ih (fun x hx => hne x (List.mem_cons_of_mem _ hx)) (by simp)
      refine ⟨glast, by rw [List.getLast?_cons_cons]; exact h1, ?_⟩
      rw [List.flatten_cons, List.getLast?_append, h2]
      have hgl : glast ≠ [] := by
        refine hne glast (List.mem_cons_of_mem _ ?_)
        exact List.mem_of_mem_getLast? h1
      match glast, hgl with
      | x :: xs, _ => simp [List.getLast?_cons]

/-! ### The sort key order is total and transitive -/

theorem readKeyLE_iff (a b : AnnotatedRead) :
    readKeyLE a b = true ↔
      (a.strand.data < b.strand.data ∨ (a.strand = b.strand ∧ a.start ≤ b.start)) := by
  simp [readKeyLE, Bool.or_eq_true, Bool.and_eq_true, decide_eq_true_eq, beq_iff_eq]

theorem readKeyLE_total (a b : AnnotatedRead) :
    readKeyLE a b = true ∨ readKeyLE b a = true := by
  rw [readKeyLE_iff, readKeyLE_iff]
  rcases lt_trichotomy a.strand.data b.strand.data with h | h | h
  · exact Or.inl (Or.inl h)
  · have hs : a.strand = b.strand := String.ext h
    rcases Int.le_total a.start b.start with h' | h'
    · exact Or.inl (Or.inr ⟨hs, h'⟩)
    · exact Or.inr (Or.inr ⟨hs.symm, h'⟩)
  · exact Or.inr (Or.inl h)

theorem readKeyLE_trans (a b c : AnnotatedRead)
    (hab : readKeyLE a b = true) (hbc : readKeyLE b c = true) :
    readKeyLE a c = true := by
  rw [readKeyLE_iff] at hab hbc ⊢
  rcases hab with h1 | ⟨h1, h1'⟩ <;> rcases hbc with h2 | ⟨h2, h2'⟩
  · exact Or.inl (lt_trans h1 h2)
  · exact Or.inl (by rwa [← congrArg String.data h2])
  · exact Or.inl (by rwa [congrArg String.data h1])
  · exact Or.inr ⟨h1.trans h2, le_trans h1' h2'⟩

instance : IsTotal AnnotatedRead readLE := ⟨readKeyLE_total⟩

instance : IsTrans AnnotatedRead readLE := ⟨readKeyLE_trans⟩

/-- C1.  For one bucket of reads, the scan of `createDataset` sorts the reads
ascending by the key (strand, start) and partitions the sorted sequence into
neighborhoods such that: the neighborhoods concatenate back to the whole
sorted sequence (nothing dropped or duplicated), every neighborhood is
non-empty, inside a neighborhood no adjacent pair crosses the boundary
condition (start positions more than `offset` apart or differing strands),
a new neighborhood starts exactly at an adjacent pair crossing it, and the
final flushed neighborhood carries the last read of the sorted sequence, so
the last read of a bucket is never dropped. -/
theorem createDataset_partition_flushes_last_read
    (umi_counting_offset : Int) (reads : List AnnotatedRead) (h : reads ≠ []) :
    (sortedReads reads).Perm reads ∧
    List.Sorted readLE (sortedReads reads) ∧
    (scanGroups umi_counting_offset [] (sortedReads reads)).flatten = sortedReads reads ∧
    (∀ g ∈ scanGroups umi_counting_offset [] (sortedReads reads), g ≠ []) ∧
    (∀ g ∈ scanGroups umi_counting_offset [] (sortedReads reads),
      List.Chain' (fun a b => isBoundary umi_counting_offset a b = false) g) ∧
    List.Chain'
      (fun g g' => ∀ a ∈ g.getLast?, ∀ b ∈ g'.head?,
        isBoundary umi_counting_offset a b = true)
      (scanGroups umi_counting_offset [] (sortedReads reads)) ∧
    (∃ glast,
      (scanGroups umi_counting_offset [] (sortedReads reads)).getLast? = some glast ∧
      (sortedReads reads).getLast? = glast.getLast?) := by
  have hperm : (sortedReads reads).Perm reads := List.perm_insertionSort readLE reads
  have hsorted : List.Sorted readLE (sortedReads reads) :=
    List.sorted_insertionSort readLE reads
  have hne : sortedReads reads ≠ [] := by
    intro hnil
    rw [hnil] at hperm
    exact h (List.Perm.nil_eq hperm).symm
  rw [scanGroups_eq_splitRuns]
  refine ⟨hperm, hsorted, splitRuns_flatten _ _, splitRuns_ne_nil _ _,
    splitRuns_chain_within _ _, splitRuns_junction _ _, ?_⟩
  have hgne : splitRuns umi_counting_offset (sortedReads reads) ≠ [] := by
    match hs : sortedReads reads, hne with
    | a :: rest, _ =>
      obtain ⟨t, gs, hsp⟩ := splitRuns_shape umi_counting_offset a rest
      simp [hsp]
  obtain ⟨glast, h1, h2⟩ :=
    flatten_getLast? (splitRuns umi_counting_offset (sortedReads reads))
      (splitRuns_ne_nil _ _) hgne
  exact ⟨glast, h1, by rw [← h2, splitRuns_flatten]⟩

/-- Witness for C1 at a concrete bucket. -/
theorem createDataset_partition_flushes_last_read_witness :
    demoReads ≠ [] ∧
    ((sortedReads demoReads).Perm demoReads ∧
    List.Sorted readLE (sortedReads demoReads) ∧
    (scanGroups 250 [] (sortedReads demoReads)).flatten = sortedReads demoReads ∧
    (∀ g ∈ scanGroups 250 [] (sortedReads demoReads), g ≠ []) ∧
    (∀ g ∈ scanGroups 250 [] (sortedReads demoReads),
      List.Chain' (fun a b => isBoundary 250 a b = false) g) ∧
    List.Chain'
      (fun g g' => ∀ a ∈ g.getLast?, ∀ b ∈ g'.head?, isBoundary 250 a b = true)
      (scanGroups 250 [] (sortedReads demoReads)) ∧
    (∃ glast,
      (scanGroups 250 [] (sortedReads demoReads)).getLast? = some glast ∧
      (sortedReads demoReads).getLast? = glast.getLast?)) :=
  ⟨by decide, createDataset_partition_flushes_last_read 250 demoReads (by decide)⟩

/-! ### The per-bucket assertion -/

theorem distinctKeys_mem (u : String) :
    ∀ l : List String, u ∈ distinctKeys l ↔ u ∈ l := by
  intro l
  induction l with
  | nil => simp [distinctKeys]
  | cons v rest ih =>
    simp only [distinctKeys, List.mem_cons, List.mem_filter, ih, decide_eq_true_eq]
    constructor
    · rintro (h | ⟨h, _⟩)
      · exact Or.inl h
      · exact Or.inr h
    · rintro (h | h)
      · exact Or.inl h
      · by_cases hu : u = v
        · exact Or.inl hu
        · exact Or.inr ⟨h, hu⟩

theorem distinctKeys_nodup : ∀ l : List String, (distinctKeys l).Nodup := by
  intro l
  induction l with
  | nil => simp [distinctKeys]
  | cons v rest ih =>
    refine List.Nodup.cons ?_ (List.Nodup.filter _ ih)
    intro hv
    have := (List.mem_filter.mp hv).2
    simp at this

theorem distinctKeys_length_le : ∀ l : List String, (distinctKeys l).length ≤ l.length := by
  intro l
  induction l with
  | nil => simp [distinctKeys]
  | cons v rest ih =>
    simp only [distinctKeys, List.length_cons]
    exact Nat.succ_le_succ (le_trans (List.length_filter_le _ _) ih)

theorem distinctKeys_ne_nil (l : List String) (h : l ≠ []) : distinctKeys l ≠ [] := by
  match l, h with
  | v :: rest, _ => simp [distinctKeys]

/-- A duplicate-free list contained in another list is at most as long. -/
theorem length_le_of_nodup_subset (l l' : List String)
    (hn : l.Nodup) (hs : ∀ x ∈ l, x ∈ l') : l.length ≤ l'.length := by
  calc l.length = l.toFinset.card := (List.toFinset_card_of_nodup hn).symm
    _ ≤ l'.toFinset.card := by
        refine Finset.card_le_card ?_
        intro x hx
        rw [List.mem_toFinset] at hx ⊢
        exact hs x hx
    _ ≤ l'.length := List.toFinset_card_le l'

theorem groupKeys_length_le (g : List AnnotatedRead) : (groupKeys g).length ≤ g.length := by
  calc (groupKeys g).length ≤ (g.map (·.UMI)).length := distinctKeys_length_le _
    _ = g.length := List.length_map _ _

theorem groupKeys_ne_nil (g : List AnnotatedRead) (h : g ≠ []) : groupKeys g ≠ [] := by
  refine distinctKeys_ne_nil _ ?_
  simp [h]

/-- Bounds for the surviving-representative count of one neighborhood. -/
theorem dedupGroup_length_bounds (f : List String → Nat → List String)
    (choose : List AnnotatedRead → AnnotatedRead) (mism : Nat)
    (g : List AnnotatedRead) (hg : g ≠ []) (hf : ClusterContract f) :
    0 < (dedupGroup f choose mism g).length ∧
      (dedupGroup f choose mism g).length ≤ g.length := by
  obtain ⟨hne, hnd, hsub⟩ := hf (groupKeys g) mism (groupKeys_ne_nil g hg)
  have hlen : (dedupGroup f choose mism g).length = (f (groupKeys g) mism).length := by
    simp [dedupGroup]
  constructor
  · rw [hlen]
    exact List.length_pos.mpr hne
  · rw [hlen]
    calc (f (groupKeys g) mism).length ≤ (groupKeys g).length :=
          length_le_of_nodup_subset _ _ hnd (fun x hx => by
            simpa [distinctKeys_mem] using hsub x hx)
      _ ≤ g.length := groupKeys_length_le g

/-- C3.  For every non-empty bucket, provided the selected clustering
function returns a non-empty duplicate-free subset of the distinct tags it
is given, the recomputed per-bucket count satisfies
`0 < transcript_count ∧ transcript_count ≤ read_count`: the assertion of
`createDataset` never fails. -/
theorem createDataset_assert_never_fails
    (f : List String → Nat → List String) (choose : List AnnotatedRead → AnnotatedRead)
    (mism : Nat) (offset : Int) (reads : List AnnotatedRead)
    (hreads : reads ≠ []) (hf : ClusterContract f) :
    0 < (processBucket f choose mism offset reads).length ∧
      (processBucket f choose mism offset reads).length ≤ reads.length := by
  have hperm := List.perm_insertionSort readLE reads
  have hsne : sortedReads reads ≠ [] := by
    intro hnil
    unfold sortedReads at hnil
    rw [hnil] at hperm
    exact hreads (List.Perm.nil_eq hperm).symm
  have hlen : (processBucket f choose mism offset reads).length =
      ((splitRuns offset (sortedReads reads)).map
        (fun g => (dedupGroup f choose mism g).length)).sum := by
    simp [processBucket, scanGroups_eq_splitRuns, List.length_flatten,
      List.map_map, Function.comp_def]
  constructor
  · rw [hlen]
    match hs : sortedReads reads, hsne with
    | a :: rest, _ =>
      obtain ⟨t, gs, hsp⟩ := splitRuns_shape offset a rest
      rw [hsp]
      have h1 : 0 < (dedupGroup f choose mism (a :: t)).length :=
        (dedupGroup_length_bounds f choose mism (a :: t) (by simp) hf).1
      simp only [List.map_cons, List.sum_cons]
      omega
  · rw [hlen]
    calc ((splitRuns offset (sortedReads reads)).map
            (fun g => (dedupGroup f choose mism g).length)).sum
        ≤ ((splitRuns offset (sortedReads reads)).map (fun g => g.length)).sum := by
          refine List.sum_le_sum ?_
          intro g hg
          exact (dedupGroup_length_bounds f choose mism g
            (splitRuns_ne_nil offset _ g hg) hf).2
      _ = (splitRuns offset (sortedReads reads)).flatten.length :=
          (List.length_flatten _).symm
      _ = (sortedReads reads).length := by rw [splitRuns_flatten]
      _ = reads.length := List.length_insertionSort readLE reads

/-- Witness for C3 at a concrete bucket and a concrete clustering function
satisfying the contract. -/
theorem createDataset_assert_never_fails_witness :
    demoReads ≠ [] ∧ ClusterContract demoCluster ∧
    (0 < (processBucket demoCluster demoChoose 1 250 demoReads).length ∧
      (processBucket demoCluster demoChoose 1 250 demoReads).length ≤ demoReads.length) := by
  have hc : ClusterContract demoCluster := by
    intro keys m hkeys
    exact ⟨distinctKeys_ne_nil keys hkeys, distinctKeys_nodup keys,
      fun u hu => (distinctKeys_mem u keys).mp hu⟩
  exact ⟨by decide, hc,
    createDataset_assert_never_fails demoCluster demoChoose 1 250 demoReads (by decide) hc⟩

/-! ### Characterization of a successful scan -/

theorem dictSet_append (row : Row) (k : String) (v : Nat)
    (h : ∀ p ∈ row, p.1 ≠ k) : dictSet row k v = row ++ [(k, v)] := by
  unfold dictSet
  have hany : row.any (fun p => p.1 == k) = false := by
    rw [List.any_eq_false]
    intro p hp
    simpa using h p hp
  rw [hany]
  simp

theorem processSpots_ok (f : List String → Nat → List String)
    (choose : List AnnotatedRead → AnnotatedRead) (mism : Nat) (offset : Int)
    (gene : String) :
    ∀ (spots : List ((Int × Int) × List AnnotatedRead)) (row : Row) (st : RunState)
      (row' : Row) (st' : RunState),
      processSpots f choose mism offset gene spots row st = .ok (row', st') →
      st'.total_record = st.total_record + spots.length ∧
      st'.discarded_reads = st.discarded_reads +
        (spots.map (fun p =>
          p.2.length - (processBucket f choose mism offset p.2).length)).sum ∧
      st'.bedLines = st.bedLines ++
        spots.flatMap (fun p => (processBucket f choose mism offset p.2).map
          (fun r => bedLine r gene p.1.1 p.1.2)) ∧
      st'.list_indexes = st.list_indexes ∧
      st'.list_row_values = st.list_row_values ∧
      (∀ p ∈ spots, 0 < (processBucket f choose mism offset p.2).length ∧
        (processBucket f choose mism offset p.2).length ≤ p.2.length) := by
  intro spots
  induction spots with
  | nil =>
    intro row st row' st' h
    simp only [processSpots] at h
    cases h
    simp
  | cons p rest ih =>
    intro row st row' st' h
    obtain ⟨⟨x, y⟩, reads⟩ := p
    simp only [processSpots] at h
    split at h
    · rename_i hcond
      obtain ⟨h1, h2, h3, h4, h5, h6⟩ := ih _ _ _ _ h
      refine ⟨?_, ?_, ?_, ?_, ?_, ?_⟩
      · simp only [h1]; simp [List.length_cons]; omega
      · simp only [h2]; simp [List.sum_cons]; omega
      · simp only [h3]; simp [List.flatMap_cons, List.append_assoc]
      · simpa using h4
      · simpa using h5
      · intro q hq
        rcases List.mem_cons.mp hq with hq | hq
        · subst hq
          exact hcond
        · exact h6 q hq
    · cases h

theorem processSpots_ok_row (f : List String → Nat → List String)
    (choose : List AnnotatedRead → AnnotatedRead) (mism : Nat) (offset : Int)
    (gene : String) :
    ∀ (spots : List ((Int × Int) × List AnnotatedRead)) (row : Row) (st : RunState)
      (row' : Row) (st' : RunState),
      processSpots f choose mism offset gene spots row st = .ok (row', st') →
      (row.map Prod.fst ++ spots.map (fun p => spotKey p.1.1 p.1.2)).Nodup →
      row' = row ++ rowSpec f choose mism offset spots := by
  intro spots
  induction spots with
  | nil =>
    intro row st row' st' h _
    simp only [processSpots] at h
    cases h
    simp [rowSpec]
  | cons p rest ih =>
    intro row st row' st' h hnd
    obtain ⟨⟨x, y⟩, reads⟩ := p
    simp only [processSpots] at h
    split at h
    · have hkey : ∀ q ∈ row, q.1 ≠ spotKey x y := by
        intro q hq
        rw [List.map_cons] at hnd
        have hdisj := (List.nodup_append.mp hnd).2.2
        intro hcontra
        exact hdisj (List.mem_map_of_mem Prod.fst hq) (by simp [hcontra])
      rw [dictSet_append row (spotKey x y) _ hkey] at h
      have hnd' : ((row ++ [(spotKey x y,
          (processBucket f choose mism offset reads).length)]).map Prod.fst ++
          rest.map (fun p => spotKey p.1.1 p.1.2)).Nodup := by
        simpa [List.map_append, List.append_assoc] using hnd
      have := ih _ _ _ _ h hnd'
      rw [this]
      simp [rowSpec, List.append_assoc]
    · cases h

theorem processGenes_ok (f : List String → Nat → List String)
    (choose : List AnnotatedRead → AnnotatedRead) (mism : Nat) (offset : Int) :
    ∀ (events : List GeneEvents) (st st' : RunState),
      processGenes f choose mism offset events st = .ok st' →
      st'.total_record = st.total_record + (bucketsOf events).length ∧
      st'.discarded_reads = st.discarded_reads + discardedSpec f choose mism offset events ∧
      st'.bedLines = st.bedLines ++ bedSpec f choose mism offset events ∧
      st'.list_indexes = st.list_indexes ++ genesOf events ∧
      (∀ b ∈ bucketsOf events,
        0 < dedupCount f choose mism offset b ∧
        dedupCount f choose mism offset b ≤ rawCount b) := by
  intro events
  induction events with
  | nil =>
    intro st st' h
    simp only [processGenes] at h
    cases h
    simp [bucketsOf, discardedSpec, bedSpec, genesOf]
  | cons ge rest ih =>
    intro st st' h
    obtain ⟨gene, spots⟩ := ge
    simp only [processGenes] at h
    split at h
    · cases h
    · rename_i row stg hps
      obtain ⟨h1, h2, h3, h4, h5, h6⟩ :=
        processSpots_ok f choose mism offset gene spots [] st row stg hps
      obtain ⟨g1, g2, g3, g4, g5⟩ := ih _ _ h
      have hbk : bucketsOf ((gene, spots) :: rest) =
          spots.map (fun p => (gene, p)) ++ bucketsOf rest := by
        simp [bucketsOf]
      refine ⟨?_, ?_, ?_, ?_, ?_⟩
      · rw [g1]; simp only [h1]; rw [hbk]; simp; omega
      · rw [g2]; simp only [h2]
        simp only [discardedSpec]
        rw [hbk, List.map_append, List.sum_append, List.map_map]
        simp only [Function.comp_def, rawCount, dedupCount]
        omega
      · rw [g3]; simp only [h3]
        simp only [bedSpec]
        rw [hbk, List.flatMap_append, List.flatMap_map]
        simp only [Function.comp_def, bedSpecOfBucket, List.append_assoc]
      · rw [g4]; simp only [h4]
        simp [genesOf]
      · intro b hb
        rw [hbk, List.mem_append] at hb
        rcases hb with hb | hb
        · obtain ⟨p, hp, hpb⟩ := List.mem_map.mp hb
          subst hpb
          exact h6 p hp
        · exact g5 b hb

theorem processGenes_ok_rows (f : List String → Nat → List String)
    (choose : List AnnotatedRead → AnnotatedRead) (mism : Nat) (offset : Int) :
    ∀ (events : List GeneEvents) (st st' : RunState),
      processGenes f choose mism offset events st = .ok st' →
      (∀ ge ∈ events, (ge.2.map (fun p => spotKey p.1.1 p.1.2)).Nodup) →
      st'.list_row_values = st.list_row_values ++ rowsSpec f choose mism offset events := by
  intro events
  induction events with
  | nil =>
    intro st st' h _
    simp only [processGenes] at h
    cases h
    simp [rowsSpec]
  | cons ge rest ih =>
    intro st st' h hnd
    obtain ⟨gene, spots⟩ := ge
    simp only [processGenes] at h
    split at h
    · cases h
    · rename_i row stg hps
      have h5 : stg.list_row_values = st.list_row_values :=
        (processSpots_ok f choose mism offset gene spots [] st row stg hps).2.2.2.2.1
      have hrow : row = [] ++ rowSpec f choose mism offset spots :=
        processSpots_ok_row f choose mism offset gene spots [] st row stg hps
          (by simpa using hnd (gene, spots) (List.mem_cons_self _ _))
      have := ih _ _ h (fun g hg => hnd g (List.mem_cons_of_mem _ hg))
      rw [this]
      simp only [h5, hrow]
      simp [rowsSpec, List.append_assoc]

/-- Master characterization of a successful `createDataset` call: the final
scan state realizes the spec-level quantities, and the result record holds
the serialized outputs and updated statistics built from that state. -/
theorem createDataset_ok_spec (fs : ClusterFuncs)
    (choose : List AnnotatedRead → AnnotatedRead) (events : List GeneEvents)
    (qa : RunStatistics) (algo : String) (mism : Nat) (offset : Int)
    (f : List String → Nat → List String)
    (hsel : selectGroupUMIFunc fs algo = some f)
    (herr : (createDataset fs choose true events qa algo mism offset).error = none) :
    ∃ st : RunState,
      processGenes f choose mism offset events {} = .ok st ∧
      st.total_record = (bucketsOf events).length ∧
      st.discarded_reads = discardedSpec f choose mism offset events ∧
      st.bedLines = bedSpec f choose mism offset events ∧
      st.list_indexes = genesOf events ∧
      bucketsOf events ≠ [] ∧
      createDataset fs choose true events qa algo mism offset =
        { error := none, inputOpened := true,
          bedFile := some st.bedLines,
          matrixFile := some (serializeMatrix st.list_indexes st.list_row_values),
          qa_stats := updateQaStats qa st } ∧
      (∀ b ∈ bucketsOf events,
        0 < dedupCount f choose mism offset b ∧
        dedupCount f choose mism offset b ≤ rawCount b) ∧
      ((∀ ge ∈ events, (ge.2.map (fun p => spotKey p.1.1 p.1.2)).Nodup) →
        st.list_row_values = rowsSpec f choose mism offset events) := by
  cases hpg : processGenes f choose mism offset events ({} : RunState) with
  | error st =>
    exfalso
    simp [createDataset, hsel, hpg] at herr
  | ok st =>
    by_cases htr : st.total_record = 0
    · exfalso
      simp [createDataset, hsel, hpg, htr] at herr
    · obtain ⟨h1, h2, h3, h4, h5⟩ := processGenes_ok f choose mism offset events {} st hpg
      have hinit : ({} : RunState).total_record = 0 ∧ ({} : RunState).discarded_reads = 0 ∧
          ({} : RunState).bedLines = [] ∧ ({} : RunState).list_indexes = [] ∧
          ({} : RunState).list_row_values = [] := ⟨rfl, rfl, rfl, rfl, rfl⟩
      refine ⟨st, rfl, ?_, ?_, ?_, ?_, ?_, ?_, h5, ?_⟩
      · rw [h1, hinit.1]; omega
      · rw [h2, hinit.2.1]; omega
      · rw [h3, hinit.2.2.1]; simp
      · rw [h4, hinit.2.2.2.1]; simp
      · intro hnil
        rw [h1, hinit.1, hnil] at htr
        simp at htr
      · simp [createDataset, hsel, hpg, htr]
      · intro hnd
        have := processGenes_ok_rows f choose mism offset events {} st hpg hnd
        rw [this, hinit.2.2.2.2]
        simp

/-! ### Summing the dense matrix -/

theorem sum_indicator_zero (k : String) (v : Nat) :
    ∀ spots : List String, k ∉ spots →
      (spots.map (fun s => if s == k then v else 0)).sum = 0 := by
  intro spots
  induction spots with
  | nil => simp
  | cons s rest ih =>
    intro hk
    have hs : ¬(s == k) = true := by
      simp only [beq_iff_eq]
      intro hcontra
      exact hk (by simp [hcontra])
    simp only [List.map_cons, List.sum_cons, if_neg hs]
    rw [ih (fun hmem => hk (List.mem_cons_of_mem _ hmem))]

theorem sum_indicator_single (k : String) (v : Nat) :
    ∀ spots : List String, spots.Nodup → k ∈ spots →
      (spots.map (fun s => if s == k then v else 0)).sum = v := by
  intro spots
  induction spots with
  | nil => intro _ h; simp at h
  | cons s rest ih =>
    intro hnd hk
    rcases List.mem_cons.mp hk with hk | hk
    · subst hk
      simp only [List.map_cons, List.sum_cons, beq_self_eq_true, if_pos]
      rw [sum_indicator_zero k v rest (List.nodup_cons.mp hnd).1]
      omega
    · have hs : ¬(s == k) = true := by
        simp only [beq_iff_eq]
        intro hcontra
        subst hcontra
        exact (List.nodup_cons.mp hnd).1 hk
      simp only [List.map_cons, List.sum_cons, if_neg hs]
      rw [ih (List.nodup_cons.mp hnd).2 hk]
      omega

/-- Summing the looked-up cells of one association-list row over a
duplicate-free column set covering its keys recovers the sum of the row's
stored values. -/
theorem lookup_sum :
    ∀ (row : Row) (spots : List String), (row.map Prod.fst).Nodup → spots.Nodup →
      (∀ k ∈ row.map Prod.fst, k ∈ spots) →
      (spots.map (fun s => (List.lookup s row).getD 0)).sum = (row.map Prod.snd).sum := by
  intro row
  induction row with
  | nil => intro spots _ _ _; simp
  | cons p row' ih =>
    intro spots hrnd hsnd hsub
    obtain ⟨k, v⟩ := p
    have hknot : k ∉ row'.map Prod.fst := by
      rw [List.map_cons] at hrnd
      exact (List.nodup_cons.mp hrnd).1
    have hlk : List.lookup k row' = none := by
      rw [List.lookup_eq_none_iff]
      intro p hp
      simp only [bne_iff_ne, ne_eq]
      intro hcontra
      exact hknot (List.mem_map.mpr ⟨p, hp, hcontra.symm⟩)
    have hpt : (fun s => (List.lookup s ((k, v) :: row')).getD 0) =
        (fun s => (if s == k then v else 0) + (List.lookup s row').getD 0) := by
      funext s
      rw [List.lookup_cons]
      by_cases hs : (s == k) = true
      · have : s = k := by simpa [beq_iff_eq] using hs
        subst this
        simp [hs, hlk]
      · simp only [hs, if_neg, Bool.false_eq_true, not_false_iff]
        match hq : s == k with
        | false => simp [hq]
        | true => exact absurd hq hs
    rw [hpt, List.sum_map_add]
    rw [sum_indicator_single k v spots hsnd (hsub k (by simp))]
    rw [ih spots
      (by rw [List.map_cons] at hrnd; exact (List.nodup_cons.mp hrnd).2)
      hsnd
      (fun x hx => hsub x (by rw [List.map_cons]; exact List.mem_cons_of_mem _ hx))]
    simp

/-- Double sums over lists commute. -/
theorem sum_exchange {α β : Type} :
    ∀ (xs : List α) (ys : List β) (F : α → β → Nat),
      (xs.map (fun x => (ys.map (F x)).sum)).sum =
        (ys.map (fun y => (xs.map (fun x => F x y)).sum)).sum := by
  intro xs
  induction xs with
  | nil => intro ys F; simp
  | cons x xs ih =>
    intro ys F
    simp only [List.map_cons, List.sum_cons]
    rw [ih ys F, ← List.sum_map_add]

/-- The sum of every cell of the dense serialized matrix equals the sum of
all stored counts, provided every row has duplicate-free keys (true of
Python dict rows). -/
theorem matrixCellsSum_eq (rows : List Row)
    (hnd : ∀ row ∈ rows, (row.map Prod.fst).Nodup) :
    matrixCellsSum rows = (rows.map (fun row => (row.map Prod.snd).sum)).sum := by
  unfold matrixCellsSum denseTable
  rw [List.sum_flatten, List.map_map]
  have hstep : ((allSpots rows).map (List.sum ∘ spotRowCells rows)).sum =
      ((allSpots rows).map (fun s => (rows.map
        (fun row => (List.lookup s row).getD 0)).sum)).sum := by
    simp [Function.comp_def, spotRowCells]
  rw [hstep, sum_exchange (allSpots rows) rows
    (fun s row => (List.lookup s row).getD 0)]
  refine congrArg List.sum (List.map_congr_left ?_)
  intro row hrow
  exact lookup_sum row (allSpots rows) (hnd row hrow) (distinctKeys_nodup _)
    (fun k hk => (distinctKeys_mem k _).mpr (List.mem_flatMap.mpr ⟨row, hrow, hk⟩))

theorem rowSpec_keys (f : List String → Nat → List String)
    (choose : List AnnotatedRead → AnnotatedRead) (mism : Nat) (offset : Int)
    (spots : List ((Int × Int) × List AnnotatedRead)) :
    (rowSpec f choose mism offset spots).map Prod.fst =
      spots.map (fun p => spotKey p.1.1 p.1.2) := by
  simp [rowSpec, List.map_map, Function.comp_def]

theorem rowsSpec_values_sum (f : List String → Nat → List String)
    (choose : List AnnotatedRead → AnnotatedRead) (mism : Nat) (offset : Int) :
    ∀ events : List GeneEvents,
      ((rowsSpec f choose mism offset events).map
        (fun row => (row.map Prod.snd).sum)).sum =
        totalDedup f choose mism offset events := by
  intro events
  induction events with
  | nil => simp [rowsSpec, totalDedup, bucketsOf]
  | cons ge rest ih =>
    obtain ⟨gene, spots⟩ := ge
    simp only [rowsSpec, List.map_cons, List.sum_cons] at ih ⊢
    rw [ih]
    simp only [totalDedup, bucketsOf, List.flatMap_cons, List.map_append,
      List.sum_append, List.map_map]
    simp [rowSpec, List.map_map, Function.comp_def, dedupCount]

theorem sum_sub_cast {γ : Type} (A B : γ → Nat) :
    ∀ l : List γ, (∀ x ∈ l, B x ≤ A x) →
      ((l.map (fun x => A x - B x)).sum : ℤ) =
        ((l.map A).sum : ℤ) - ((l.map B).sum : ℤ) := by
  intro l
  induction l with
  | nil => simp
  | cons x rest ih =>
    intro h
    have hx : B x ≤ A x := h x (List.mem_cons_self _ _)
    simp only [List.map_cons, List.sum_cons, Nat.cast_add]
    rw [ih (fun y hy => h y (List.mem_cons_of_mem _ hy))]
    rw [Nat.cast_sub hx]
    ring

theorem sum_sub_pointwise_cast {γ : Type} (A B : γ → Nat) :
    ∀ l : List γ, (∀ x ∈ l, B x ≤ A x) →
      ((l.map (fun x => A x - B x)).sum : ℤ) =
        (l.map (fun x => (A x : ℤ) - (B x : ℤ))).sum := by
  intro l
  induction l with
  | nil => simp
  | cons x rest ih =>
    intro h
    have hx : B x ≤ A x := h x (List.mem_cons_self _ _)
    simp only [List.map_cons, List.sum_cons, Nat.cast_add]
    rw [ih (fun y hy => h y (List.mem_cons_of_mem _ hy))]
    rw [Nat.cast_sub hx]

/-- C2.  After a successful `createDataset` run, the duplicates-discarded
statistic equals the sum over all (gene, spot) buckets of raw read count
minus deduplicated count; that total, as an integer, equals the sum of the
per-bucket signed differences, is non-negative, and equals the total number
of input reads minus the sum of all entries of the serialized count matrix. -/
theorem createDataset_discarded_accounting (fs : ClusterFuncs)
    (choose : List AnnotatedRead → AnnotatedRead) (events : List GeneEvents)
    (qa : RunStatistics) (algo : String) (mism : Nat) (offset : Int)
    (f : List String → Nat → List String)
    (hsel : selectGroupUMIFunc fs algo = some f)
    (hnd : ∀ ge ∈ events, (ge.2.map (fun p => spotKey p.1.1 p.1.2)).Nodup)
    (herr : (createDataset fs choose true events qa algo mism offset).error = none) :
    (createDataset fs choose true events qa algo mism offset).qa_stats.duplicates_found =
      some (discardedSpec f choose mism offset events) ∧
    (discardedSpec f choose mism offset events : ℤ) =
      ((bucketsOf events).map
        (fun b => (rawCount b : ℤ) - (dedupCount f choose mism offset b : ℤ))).sum ∧
    (0 : ℤ) ≤ (discardedSpec f choose mism offset events : ℤ) ∧
    (createDataset fs choose true events qa algo mism offset).matrixFile =
      some (serializeMatrix (genesOf events) (rowsSpec f choose mism offset events)) ∧
    (discardedSpec f choose mism offset events : ℤ) =
      (totalReadsIn events : ℤ) -
        (matrixCellsSum (rowsSpec f choose mism offset events) : ℤ) := by
  obtain ⟨st, hpg, h1, h2, h3, h4, hne, hres, hbnd, hrows⟩ :=
    createDataset_ok_spec fs choose events qa algo mism offset f hsel herr
  have hrowsSpec := hrows hnd
  have hkeysnd : ∀ row ∈ rowsSpec f choose mism offset events, (row.map Prod.fst).Nodup := by
    intro row hrow
    obtain ⟨ge, hge, hgerow⟩ := List.mem_map.mp hrow
    rw [← hgerow, rowSpec_keys]
    exact hnd ge hge
  have hmsum : matrixCellsSum (rowsSpec f choose mism offset events) =
      totalDedup f choose mism offset events := by
    rw [matrixCellsSum_eq _ hkeysnd, rowsSpec_values_sum]
  have hsub : ∀ b ∈ bucketsOf events,
      dedupCount f choose mism offset b ≤ rawCount b := fun b hb => (hbnd b hb).2
  refine ⟨?_, ?_, ?_, ?_, ?_⟩
  · rw [hres]
    simp [updateQaStats, h2]
  · exact sum_sub_pointwise_cast rawCount (dedupCount f choose mism offset)
      (bucketsOf events) hsub
  · exact Int.natCast_nonneg _
  · rw [hres]
    simp [hrowsSpec, h4]
  · rw [hmsum, totalReadsIn]
    exact sum_sub_cast rawCount (dedupCount f choose mism offset) (bucketsOf events) hsub

/-- Witness for C2 at a concrete successful run. -/
theorem createDataset_discarded_accounting_witness :
    selectGroupUMIFunc demoFuncs "hierarchical" = some demoFuncs.countUMIHierarchical ∧
    (∀ ge ∈ demoEvents, (ge.2.map (fun p => spotKey p.1.1 p.1.2)).Nodup) ∧
    (createDataset demoFuncs demoChoose true demoEvents qa0 "hierarchical" 1 250).error = none ∧
    ((createDataset demoFuncs demoChoose true demoEvents qa0
        "hierarchical" 1 250).qa_stats.duplicates_found =
      some (discardedSpec demoFuncs.countUMIHierarchical demoChoose 1 250 demoEvents) ∧
    (discardedSpec demoFuncs.countUMIHierarchical demoChoose 1 250 demoEvents : ℤ) =
      ((bucketsOf demoEvents).map
        (fun b => (rawCount b : ℤ) -
          (dedupCount demoFuncs.countUMIHierarchical demoChoose 1 250 b : ℤ))).sum ∧
    (0 : ℤ) ≤ (discardedSpec demoFuncs.countUMIHierarchical demoChoose 1 250 demoEvents : ℤ) ∧
    (createDataset demoFuncs demoChoose true demoEvents qa0 "hierarchical" 1 250).matrixFile =
      some (serializeMatrix (genesOf demoEvents)
        (rowsSpec demoFuncs.countUMIHierarchical demoChoose 1 250 demoEvents)) ∧
    (discardedSpec demoFuncs.countUMIHierarchical demoChoose 1 250 demoEvents : ℤ) =
      (totalReadsIn demoEvents : ℤ) -
        (matrixCellsSum (rowsSpec demoFuncs.countUMIHierarchical demoChoose 1 250 demoEvents) : ℤ)) :=
  ⟨rfl, by decide, by rfl,
    createDataset_discarded_accounting demoFuncs demoChoose demoEvents qa0
      "hierarchical" 1 250 demoFuncs.countUMIHierarchical rfl (by decide) (by rfl)⟩

/-! ### Error handling -/

/-- C5.  For every unrecognized clustering-strategy name, `createDataset`
fails with the configuration error eagerly: the annotated-read input stream
is never opened, no neighborhood is processed, no output file is created,
and the statistics object is untouched.  (The source checks the input
file's existence first; this theorem describes the dispatch given that
check passed, which is the situation the claim describes.) -/
theorem createDataset_unknown_algorithm_fails_eagerly (fs : ClusterFuncs)
    (choose : List AnnotatedRead → AnnotatedRead) (events : List GeneEvents)
    (qa : RunStatistics) (algo : String) (mism : Nat) (offset : Int)
    (halgo : algo ∉ ["naive", "hierarchical", "Adjacent", "AdjacentBi"]) :
    createDataset fs choose true events qa algo mism offset =
      { error := some .incorrectClusteringAlgorithm, inputOpened := false,
        bedFile := none, matrixFile := none, qa_stats := qa } := by
  have hsel : selectGroupUMIFunc fs algo = none := by
    simp only [List.mem_cons, List.not_mem_nil, or_false, not_or] at halgo
    obtain ⟨h1, h2, h3, h4⟩ := halgo
    simp [selectGroupUMIFunc, h1, h2, h3, h4]
  simp [createDataset, hsel]

/-- Witness for C5 at a concrete unrecognized name. -/
theorem createDataset_unknown_algorithm_fails_eagerly_witness :
    "bogus" ∉ ["naive", "hierarchical", "Adjacent", "AdjacentBi"] ∧
    createDataset demoFuncs demoChoose true demoEvents qa0 "bogus" 1 250 =
      { error := some .incorrectClusteringAlgorithm, inputOpened := false,
        bedFile := none, matrixFile := none, qa_stats := qa0 } :=
  ⟨by decide,
    createDataset_unknown_algorithm_fails_eagerly demoFuncs demoChoose demoEvents
      qa0 "bogus" 1 250 (by decide)⟩

/-- C6.  A missing input file fails with the input error before any
processing (input never opened, no file created, statistics untouched); and
with the input present and the strategy recognized, a scan that completes
raises the zero-transcript processing error exactly when zero (gene, spot)
buckets were produced — never when at least one bucket was processed. -/
theorem createDataset_missing_input_and_zero_events (fs : ClusterFuncs)
    (choose : List AnnotatedRead → AnnotatedRead) (events : List GeneEvents)
    (qa : RunStatistics) (algo : String) (mism : Nat) (offset : Int)
    (f : List String → Nat → List String)
    (hsel : selectGroupUMIFunc fs algo = some f) :
    (createDataset fs choose false events qa algo mism offset =
      { error := some .inputNotPresent, inputOpened := false,
        bedFile := none, matrixFile := none, qa_stats := qa }) ∧
    (∀ st : RunState,
      processGenes f choose mism offset events {} = .ok st →
      ((createDataset fs choose true events qa algo mism offset).error =
          some .noTranscripts ↔ bucketsOf events = [])) := by
  constructor
  · simp [createDataset]
  · intro st hpg
    have h1 := (processGenes_ok f choose mism offset events {} st hpg).1
    have h1' : st.total_record = (bucketsOf events).length := by
      rw [h1]
      show 0 + _ = _
      omega
    constructor
    · intro herr
      by_contra hne
      have hlen : st.total_record ≠ 0 := by
        rw [h1']
        intro hz
        exact hne (List.eq_nil_of_length_eq_zero hz)
      simp [createDataset, hsel, hpg, hlen] at herr
    · intro hnil
      have hz : st.total_record = 0 := by rw [h1', hnil]; rfl
      simp [createDataset, hsel, hpg, hz]

/-- Witness for C6 at concrete inputs. -/
theorem createDataset_missing_input_and_zero_events_witness :
    selectGroupUMIFunc demoFuncs "naive" = some demoFuncs.countUMINaive ∧
    ((createDataset demoFuncs demoChoose false demoEvents qa0 "naive" 1 250 =
      { error := some .inputNotPresent, inputOpened := false,
        bedFile := none, matrixFile := none, qa_stats := qa0 }) ∧
    (∀ st : RunState,
      processGenes demoFuncs.countUMINaive demoChoose 1 250 demoEvents {} = .ok st →
      ((createDataset demoFuncs demoChoose true demoEvents qa0 "naive" 1 250).error =
          some .noTranscripts ↔ bucketsOf demoEvents = []))) :=
  ⟨rfl,
    createDataset_missing_input_and_zero_events demoFuncs demoChoose demoEvents
      qa0 "naive" 1 250 demoFuncs.countUMINaive rfl⟩

/-- C7 counterexample.  A concrete run that fails after processing has begun
(the zero-transcript processing error) nevertheless leaves the trace (BED)
file behind: the file was created when processing started and persists on
the failure path, while the matrix file was never created — so it is false
that on such a failure each output file is either written completely or not
created at all. -/
theorem createDataset_failure_leaves_trace_file :
    (createDataset demoFuncs demoChoose true demoEmptyEvents qa0 "naive" 1 250).error =
      some .noTranscripts ∧
    (createDataset demoFuncs demoChoose true demoEmptyEvents qa0 "naive" 1 250).inputOpened
      = true ∧
    (createDataset demoFuncs demoChoose true demoEmptyEvents qa0 "naive" 1 250).bedFile =
      some [] ∧
    (createDataset demoFuncs demoChoose true demoEmptyEvents qa0 "naive" 1 250).bedFile ≠
      none ∧
    (createDataset demoFuncs demoChoose true demoEmptyEvents qa0 "naive" 1 250).matrixFile =
      none := by
  refine ⟨rfl, rfl, rfl, ?_, rfl⟩
  rw [show (createDataset demoFuncs demoChoose true demoEmptyEvents qa0
      "naive" 1 250).bedFile = some [] from rfl]
  simp

/-- C7 amended.  The count-matrix file is all-or-nothing: it exists if and
only if the run succeeded.  The trace (BED) file, however, is created as
soon as the input stream is opened (before any record is processed), and on
a failure after that point it remains on disk with the lines written up to
the failure. -/
theorem createDataset_matrix_all_or_nothing (fs : ClusterFuncs)
    (choose : List AnnotatedRead → AnnotatedRead) (input_file_exists : Bool)
    (events : List GeneEvents) (qa : RunStatistics) (algo : String)
    (mism : Nat) (offset : Int) :
    ((createDataset fs choose input_file_exists events qa algo mism offset).matrixFile ≠ none ↔
      (createDataset fs choose input_file_exists events qa algo mism offset).error = none) ∧
    ((createDataset fs choose input_file_exists events qa algo mism offset).bedFile ≠ none ↔
      (createDataset fs choose input_file_exists events qa algo mism offset).inputOpened
        = true) := by
  cases input_file_exists with
  | false => simp [createDataset]
  | true =>
    cases hsel : selectGroupUMIFunc fs algo with
    | none => simp [createDataset, hsel]
    | some f =>
      cases hpg : processGenes f choose mism offset events ({} : RunState) with
      | error st => simp [createDataset, hsel, hpg]
      | ok st =>
        by_cases htr : st.total_record = 0 <;>
          simp [createDataset, hsel, hpg, htr]

/-! ### The statistics aggregation -/

/-- C4 counterexample.  On a concrete successful run the statistics block
assigns the other summary fields (here: the duplicates statistic and the
mean molecules-per-feature), yet the standard deviation of
molecules-per-feature — listed by the claim — is computed only for logging
and is never written into the caller's statistics object: its field is
still unassigned after the call. -/
theorem createDataset_std_molecules_not_written :
    (createDataset demoFuncs demoChoose true demoEvents qa0 "hierarchical" 1 250).error
      = none ∧
    (createDataset demoFuncs demoChoose true demoEvents qa0
      "hierarchical" 1 250).qa_stats.duplicates_found.isSome = true ∧
    (createDataset demoFuncs demoChoose true demoEvents qa0
      "hierarchical" 1 250).qa_stats.average_reads_feature.isSome = true ∧
    (createDataset demoFuncs demoChoose true demoEvents qa0
      "hierarchical" 1 250).qa_stats.std_reads_feature = none ∧
    (createDataset demoFuncs demoChoose true demoEvents qa0
      "hierarchical" 1 250).qa_stats.std_genes_feature = none :=
  ⟨rfl, rfl, rfl, rfl, rfl⟩

/-- C4 amended.  On every successful run the aggregator writes, into named
fields of the caller-supplied statistics object, the total molecules, the
number of (gene, spot) events, the spots (barcodes) seen, the genes seen,
the duplicates discarded, max/min genes-per-feature, max/min/average
molecules-per-feature, average genes-per-feature, and max/min single-event
count — but not the standard deviations, which are computed for logging
only: those fields keep exactly the caller's previous values.  All updates
are field-wise on the same object (the functional shadow of the
mutate-in-place contract). -/
theorem createDataset_stats_fields_written (fs : ClusterFuncs)
    (choose : List AnnotatedRead → AnnotatedRead) (events : List GeneEvents)
    (qa : RunStatistics) (algo : String) (mism : Nat) (offset : Int)
    (f : List String → Nat → List String)
    (hsel : selectGroupUMIFunc fs algo = some f)
    (herr : (createDataset fs choose true events qa algo mism offset).error = none) :
    ((createDataset fs choose true events qa algo mism offset).qa_stats.reads_after_duplicates_removal.isSome = true) ∧
    ((createDataset fs choose true events qa algo mism offset).qa_stats.unique_events.isSome = true) ∧
    ((createDataset fs choose true events qa algo mism offset).qa_stats.barcodes_found.isSome = true) ∧
    ((createDataset fs choose true events qa algo mism offset).qa_stats.genes_found.isSome = true) ∧
    ((createDataset fs choose true events qa algo mism offset).qa_stats.duplicates_found.isSome = true) ∧
    ((createDataset fs choose true events qa algo mism offset).qa_stats.max_genes_feature.isSome = true) ∧
    ((createDataset fs choose true events qa algo mism offset).qa_stats.min_genes_feature.isSome = true) ∧
    ((createDataset fs choose true events qa algo mism offset).qa_stats.max_reads_feature.isSome = true) ∧
    ((createDataset fs choose true events qa algo mism offset).qa_stats.min_reads_feature.isSome = true) ∧
    ((createDataset fs choose true events qa algo mism offset).qa_stats.max_reads_unique_event.isSome = true) ∧
    ((createDataset fs choose true events qa algo mism offset).qa_stats.min_reads_unique_event.isSome = true) ∧
    ((createDataset fs choose true events qa algo mism offset).qa_stats.avergage_gene_feature.isSome = true) ∧
    ((createDataset fs choose true events qa algo mism offset).qa_stats.average_reads_feature.isSome = true) ∧
    ((createDataset fs choose true events qa algo mism offset).qa_stats.std_reads_feature = qa.std_reads_feature) ∧
    ((createDataset fs choose true events qa algo mism offset).qa_stats.std_genes_feature = qa.std_genes_feature) := by
  obtain ⟨st, hpg, h1, h2, h3, h4, hne, hres, hbnd, hrows⟩ :=
    createDataset_ok_spec fs choose events qa algo mism offset f hsel herr
  rw [hres]
  simp [updateQaStats]

/-- Witness for the amended C4 at a concrete successful run. -/
theorem createDataset_stats_fields_written_witness :
    selectGroupUMIFunc demoFuncs "naive" = some demoFuncs.countUMINaive ∧
    (createDataset demoFuncs demoChoose true demoEvents qa0 "naive" 1 250).error = none ∧
    (((createDataset demoFuncs demoChoose true demoEvents qa0 "naive" 1 250).qa_stats.reads_after_duplicates_removal.isSome = true) ∧
    ((createDataset demoFuncs demoChoose true demoEvents qa0 "naive" 1 250).qa_stats.unique_events.isSome = true) ∧
    ((createDataset demoFuncs demoChoose true demoEvents qa0 "naive" 1 250).qa_stats.barcodes_found.isSome = true) ∧
    ((createDataset demoFuncs demoChoose true demoEvents qa0 "naive" 1 250).qa_stats.genes_found.isSome = true) ∧
    ((createDataset demoFuncs demoChoose true demoEvents qa0 "naive" 1 250).qa_stats.duplicates_found.isSome = true) ∧
    ((createDataset demoFuncs demoChoose true demoEvents qa0 "naive" 1 250).qa_stats.max_genes_feature.isSome = true) ∧
    ((createDataset demoFuncs demoChoose true demoEvents qa0 "naive" 1 250).qa_stats.min_genes_feature.isSome = true) ∧
    ((createDataset demoFuncs demoChoose true demoEvents qa0 "naive" 1 250).qa_stats.max_reads_feature.isSome = true) ∧
    ((createDataset demoFuncs demoChoose true demoEvents qa0 "naive" 1 250).qa_stats.min_reads_feature.isSome = true) ∧
    ((createDataset demoFuncs demoChoose true demoEvents qa0 "naive" 1 250).qa_stats.max_reads_unique_event.isSome = true) ∧
    ((createDataset demoFuncs demoChoose true demoEvents qa0 "naive" 1 250).qa_stats.min_reads_unique_event.isSome = true) ∧
    ((createDataset demoFuncs demoChoose true demoEvents qa0 "naive" 1 250).qa_stats.avergage_gene_feature.isSome = true) ∧
    ((createDataset demoFuncs demoChoose true demoEvents qa0 "naive" 1 250).qa_stats.average_reads_feature.isSome = true) ∧
    ((createDataset demoFuncs demoChoose true demoEvents qa0 "naive" 1 250).qa_stats.std_reads_feature = qa0.std_reads_feature) ∧
    ((createDataset demoFuncs demoChoose true demoEvents qa0 "naive" 1 250).qa_stats.std_genes_feature = qa0.std_genes_feature)) :=
  ⟨rfl, rfl,
    createDataset_stats_fields_written demoFuncs demoChoose demoEvents qa0
      "naive" 1 250 demoFuncs.countUMINaive rfl rfl⟩

/-! ### The trace output -/

/-- C9.  On every successful run the trace (BED) file contains exactly the
sum over all buckets of the deduplicated molecule counts — one line per
surviving molecule — and every line is the tab-join of the nine columns
chrom, start, end, read name, mapping quality, strand, gene, x, y in that
fixed order. -/
theorem createDataset_trace_lines (fs : ClusterFuncs)
    (choose : List AnnotatedRead → AnnotatedRead) (events : List GeneEvents)
    (qa : RunStatistics) (algo : String) (mism : Nat) (offset : Int)
    (f : List String → Nat → List String)
    (hsel : selectGroupUMIFunc fs algo = some f)
    (herr : (createDataset fs choose true events qa algo mism offset).error = none) :
    (createDataset fs choose true events qa algo mism offset).bedFile =
      some (bedSpec f choose mism offset events) ∧
    (bedSpec f choose mism offset events).length =
      totalDedup f choose mism offset events ∧
    (∀ line ∈ bedSpec f choose mism offset events,
      ∃ read gene x y, line = bedLine read gene x y ∧
        (bedFields read gene x y).length = 9) := by
  obtain ⟨st, hpg, h1, h2, h3, h4, hne, hres, hbnd, hrows⟩ :=
    createDataset_ok_spec fs choose events qa algo mism offset f hsel herr
  refine ⟨?_, ?_, ?_⟩
  · rw [hres, h3]
  · rw [bedSpec, List.length_flatMap, totalDedup]
    refine congrArg List.sum (List.map_congr_left ?_)
    intro b _
    simp [Function.comp_def, bedSpecOfBucket, dedupCount]
  · intro line hline
    obtain ⟨b, hb, hlb⟩ := List.mem_flatMap.mp hline
    obtain ⟨r, _, hr⟩ := List.mem_map.mp hlb
    exact ⟨r, b.1, b.2.1.1, b.2.1.2, hr.symm, rfl⟩

/-- Witness for C9 at a concrete successful run. -/
theorem createDataset_trace_lines_witness :
    selectGroupUMIFunc demoFuncs "naive" = some demoFuncs.countUMINaive ∧
    (createDataset demoFuncs demoChoose true demoEvents qa0 "naive" 1 250).error = none ∧
    ((createDataset demoFuncs demoChoose true demoEvents qa0 "naive" 1 250).bedFile =
      some (bedSpec demoFuncs.countUMINaive demoChoose 1 250 demoEvents) ∧
    (bedSpec demoFuncs.countUMINaive demoChoose 1 250 demoEvents).length =
      totalDedup demoFuncs.countUMINaive demoChoose 1 250 demoEvents ∧
    (∀ line ∈ bedSpec demoFuncs.countUMINaive demoChoose 1 250 demoEvents,
      ∃ read gene x y, line = bedLine read gene x y ∧
        (bedFields read gene x y).length = 9)) :=
  ⟨rfl, rfl,
    createDataset_trace_lines demoFuncs demoChoose demoEvents qa0 "naive" 1 250
      demoFuncs.countUMINaive rfl rfl⟩

/-! ### The serialized count matrix -/

theorem getD_map_total {α β : Type} (g : α → β) (dA : α) (dB : β) (hg : g dA = dB) :
    ∀ (l : List α) (j : Nat), (l.map g).getD j dB = g (l.getD j dA) := by
  intro l
  induction l with
  | nil => intro j; simp [hg]
  | cons a l ih =>
    intro j
    cases j with
    | zero => simp
    | succ j => simpa using ih j

theorem lookup_getD_zero_of_not_mem (row : Row) (s : String)
    (h : s ∉ row.map Prod.fst) : (List.lookup s row).getD 0 = 0 := by
  have hnone : List.lookup s row = none := by
    rw [List.lookup_eq_none_iff]
    intro p hp
    simp only [bne_iff_ne, ne_eq]
    intro hc
    exact h (List.mem_map.mpr ⟨p, hp, hc.symm⟩)
  simp [hnone]

theorem rowSpec_lookup (f : List String → Nat → List String)
    (choose : List AnnotatedRead → AnnotatedRead) (mism : Nat) (offset : Int) :
    ∀ spots : List ((Int × Int) × List AnnotatedRead),
      (spots.map (fun p => spotKey p.1.1 p.1.2)).Nodup →
      ∀ p ∈ spots,
        List.lookup (spotKey p.1.1 p.1.2) (rowSpec f choose mism offset spots) =
          some (processBucket f choose mism offset p.2).length := by
  intro spots
  induction spots with
  | nil => intro _ p hp; simp at hp
  | cons q rest ih =>
    intro hnd p hp
    rw [List.map_cons, List.nodup_cons] at hnd
    rcases List.mem_cons.mp hp with hp | hp
    · subst hp
      simp [rowSpec, List.lookup_cons]
    · have hne : (spotKey p.1.1 p.1.2 == spotKey q.1.1 q.1.2) = false := by
        simp only [beq_eq_false_iff_ne, ne_eq]
        intro hc
        exact hnd.1 (hc ▸ List.mem_map_of_mem _ hp)
      have := ih hnd.2 p hp
      simp only [rowSpec, List.map_cons, List.lookup_cons, hne]
      simpa [rowSpec] using this

/-- C8.  On every successful run the persisted count matrix is the
transpose of the gene-major accumulation, serialized as tab-separated
lines: the header row holds the gene names (after the leading index-label
cell), every following row is one spot key formatted x-coordinate, letter
x, y-coordinate, and every cell is a natural number rendered in decimal —
hence no entry is negative or fractional; a cell of a (spot, gene) pair
present in the input is that bucket's deduplicated count, and every absent
pair serializes as 0. -/
theorem createDataset_matrix_serialization (fs : ClusterFuncs)
    (choose : List AnnotatedRead → AnnotatedRead) (events : List GeneEvents)
    (qa : RunStatistics) (algo : String) (mism : Nat) (offset : Int)
    (f : List String → Nat → List String)
    (hsel : selectGroupUMIFunc fs algo = some f)
    (hnd : ∀ ge ∈ events, (ge.2.map (fun p => spotKey p.1.1 p.1.2)).Nodup)
    (herr : (createDataset fs choose true events qa algo mism offset).error = none) :
    (createDataset fs choose true events qa algo mism offset).matrixFile =
      some (String.intercalate "\t" ("" :: genesOf events) ::
        (allSpots (rowsSpec f choose mism offset events)).map
          (fun s => String.intercalate "\t"
            (s :: (spotRowCells (rowsSpec f choose mism offset events) s).map toString))) ∧
    (∀ (j : Nat) (s : String),
      (spotRowCells (rowsSpec f choose mism offset events) s).getD j 0 =
        (List.lookup s ((rowsSpec f choose mism offset events).getD j [])).getD 0) ∧
    (∀ j : Nat, ∀ p ∈ (events.getD j ("", [])).2,
      List.lookup (spotKey p.1.1 p.1.2)
          ((rowsSpec f choose mism offset events).getD j []) =
        some (processBucket f choose mism offset p.2).length) ∧
    (∀ (j : Nat) (s : String),
      s ∉ ((rowsSpec f choose mism offset events).getD j []).map Prod.fst →
      (List.lookup s ((rowsSpec f choose mism offset events).getD j [])).getD 0 = 0) := by
  obtain ⟨st, hpg, h1, h2, h3, h4, hne, hres, hbnd, hrows⟩ :=
    createDataset_ok_spec fs choose events qa algo mism offset f hsel herr
  have hrowsSpec := hrows hnd
  have hgetD : ∀ j : Nat, (rowsSpec f choose mism offset events).getD j [] =
      rowSpec f choose mism offset ((events.getD j ("", [])).2) := by
    intro j
    exact getD_map_total (fun ge => rowSpec f choose mism offset ge.2) ("", []) []
      (by simp [rowSpec]) events j
  refine ⟨?_, ?_, ?_, ?_⟩
  · rw [hres]
    rw [show serializeMatrix st.list_indexes st.list_row_values =
      String.intercalate "\t" ("" :: st.list_indexes) ::
        (allSpots st.list_row_values).map
          (fun s => String.intercalate "\t"
            (s :: (spotRowCells st.list_row_values s).map toString)) from rfl]
    rw [hrowsSpec, h4]
  · intro j s
    exact getD_map_total (fun row => (List.lookup s row).getD 0) [] 0 (by simp) _ j
  · intro j p hp
    rw [hgetD j]
    by_cases hj : j < events.length
    · have hmem : events.getD j ("", []) ∈ events := by
        rw [List.getD_eq_getElem _ _ hj]
        exact List.getElem_mem hj
      exact rowSpec_lookup f choose mism offset _ (hnd _ hmem) p hp
    · rw [List.getD_eq_default _ _ (Nat.le_of_not_lt hj)] at hp
      simp at hp
  · intro j s hs
    exact lookup_getD_zero_of_not_mem _ s hs

/-- Witness for C8 at a concrete successful run. -/
theorem createDataset_matrix_serialization_witness :
    selectGroupUMIFunc demoFuncs "naive" = some demoFuncs.countUMINaive ∧
    (∀ ge ∈ demoEvents, (ge.2.map (fun p => spotKey p.1.1 p.1.2)).Nodup) ∧
    (createDataset demoFuncs demoChoose true demoEvents qa0 "naive" 1 250).error = none ∧
    ((createDataset demoFuncs demoChoose true demoEvents qa0 "naive" 1 250).matrixFile =
      some (String.intercalate "\t" ("" :: genesOf demoEvents) ::
        (allSpots (rowsSpec demoFuncs.countUMINaive demoChoose 1 250 demoEvents)).map
          (fun s => String.intercalate "\t"
            (s :: (spotRowCells (rowsSpec demoFuncs.countUMINaive demoChoose 1 250 demoEvents) s).map toString))) ∧
    (∀ (j : Nat) (s : String),
      (spotRowCells (rowsSpec demoFuncs.countUMINaive demoChoose 1 250 demoEvents) s).getD j 0 =
        (List.lookup s ((rowsSpec demoFuncs.countUMINaive demoChoose 1 250 demoEvents).getD j [])).getD 0) ∧
    (∀ j : Nat, ∀ p ∈ (demoEvents.getD j ("", [])).2,
      List.lookup (spotKey p.1.1 p.1.2)
          ((rowsSpec demoFuncs.countUMINaive demoChoose 1 250 demoEvents).getD j []) =
        some (processBucket demoFuncs.countUMINaive demoChoose 1 250 p.2).length) ∧
    (∀ (j : Nat) (s : String),
      s ∉ ((rowsSpec demoFuncs.countUMINaive demoChoose 1 250 demoEvents).getD j []).map Prod.fst →
      (List.lookup s ((rowsSpec demoFuncs.countUMINaive demoChoose 1 250 demoEvents).getD j [])).getD 0 = 0)) :=
  ⟨rfl, by decide, rfl,
    createDataset_matrix_serialization demoFuncs demoChoose demoEvents qa0
      "naive" 1 250 demoFuncs.countUMINaive rfl (by decide) rfl⟩

/-! ### 32-bit accumulation of the total-molecules statistic -/

theorem toInt32_exact (n : Nat) (h : n < 2 ^ 31) : toInt32 n = (n : Int) := by
  unfold toInt32
  have h32 : n % 2 ^ 32 = n := Nat.mod_eq_of_lt (by omega)
  rw [h32]
  rw [if_pos h]

theorem toInt32_bounds (n : Nat) : -(2 ^ 31) ≤ toInt32 n ∧ toInt32 n < 2 ^ 31 := by
  have hm : n % 2 ^ 32 < 2 ^ 32 := Nat.mod_lt _ (by norm_num)
  unfold toInt32
  split <;> constructor <;> omega

theorem toInt32_congruent (n : Nat) : toInt32 n % 2 ^ 32 = (n : Int) % 2 ^ 32 := by
  have hm : n % 2 ^ 32 < 2 ^ 32 := Nat.mod_lt _ (by norm_num)
  unfold toInt32
  split <;> omega

theorem toInt32_overflow_ne (n : Nat) (h : 2 ^ 31 ≤ n) : toInt32 n ≠ (n : Int) := by
  have hb := (toInt32_bounds n).2
  omega

/-- C10.  The total-molecules statistic is the sum of the count-matrix
entries accumulated with wrap-around signed 32-bit arithmetic: on every
successful run the reported value is the signed 32-bit reinterpretation of
the exact entry total — equal to the exact total whenever that total is
below 2 to the 31, always within the signed 32-bit range and congruent to
the exact total modulo 2 to the 32, and different from the exact total as
soon as the total reaches 2 to the 31. -/
theorem createDataset_total_molecules_int32 (fs : ClusterFuncs)
    (choose : List AnnotatedRead → AnnotatedRead) (events : List GeneEvents)
    (qa : RunStatistics) (algo : String) (mism : Nat) (offset : Int)
    (f : List String → Nat → List String)
    (hsel : selectGroupUMIFunc fs algo = some f)
    (hnd : ∀ ge ∈ events, (ge.2.map (fun p => spotKey p.1.1 p.1.2)).Nodup)
    (herr : (createDataset fs choose true events qa algo mism offset).error = none) :
    (createDataset fs choose true events qa algo mism
        offset).qa_stats.reads_after_duplicates_removal =
      some (toInt32 (matrixCellsSum (rowsSpec f choose mism offset events))) ∧
    (matrixCellsSum (rowsSpec f choose mism offset events) < 2 ^ 31 →
      toInt32 (matrixCellsSum (rowsSpec f choose mism offset events)) =
        (matrixCellsSum (rowsSpec f choose mism offset events) : Int)) ∧
    toInt32 (matrixCellsSum (rowsSpec f choose mism offset events)) % 2 ^ 32 =
      (matrixCellsSum (rowsSpec f choose mism offset events) : Int) % 2 ^ 32 ∧
    -(2 ^ 31) ≤ toInt32 (matrixCellsSum (rowsSpec f choose mism offset events)) ∧
    toInt32 (matrixCellsSum (rowsSpec f choose mism offset events)) < 2 ^ 31 ∧
    (2 ^ 31 ≤ matrixCellsSum (rowsSpec f choose mism offset events) →
      toInt32 (matrixCellsSum (rowsSpec f choose mism offset events)) ≠
        (matrixCellsSum (rowsSpec f choose mism offset events) : Int)) := by
  obtain ⟨st, hpg, h1, h2, h3, h4, hne, hres, hbnd, hrows⟩ :=
    createDataset_ok_spec fs choose events qa algo mism offset f hsel herr
  have hrowsSpec := hrows hnd
  refine ⟨?_, toInt32_exact _, toInt32_congruent _,
    (toInt32_bounds _).1, (toInt32_bounds _).2, toInt32_overflow_ne _⟩
  rw [hres]
  simp only [updateQaStats, npSumInt32, matrixCellsSum, hrowsSpec]

/-- Witness for C10 at a concrete successful run. -/
theorem createDataset_total_molecules_int32_witness :
    selectGroupUMIFunc demoFuncs "naive" = some demoFuncs.countUMINaive ∧
    (∀ ge ∈ demoEvents, (ge.2.map (fun p => spotKey p.1.1 p.1.2)).Nodup) ∧
    (createDataset demoFuncs demoChoose true demoEvents qa0 "naive" 1 250).error = none ∧
    ((createDataset demoFuncs demoChoose true demoEvents qa0 "naive" 1
        250).qa_stats.reads_after_duplicates_removal =
      some (toInt32 (matrixCellsSum (rowsSpec demoFuncs.countUMINaive demoChoose 1 250 demoEvents))) ∧
    (matrixCellsSum (rowsSpec demoFuncs.countUMINaive demoChoose 1 250 demoEvents) < 2 ^ 31 →
      toInt32 (matrixCellsSum (rowsSpec demoFuncs.countUMINaive demoChoose 1 250 demoEvents)) =
        (matrixCellsSum (rowsSpec demoFuncs.countUMINaive demoChoose 1 250 demoEvents) : Int)) ∧
    toInt32 (matrixCellsSum (rowsSpec demoFuncs.countUMINaive demoChoose 1 250 demoEvents)) % 2 ^ 32 =
      (matrixCellsSum (rowsSpec demoFuncs.countUMINaive demoChoose 1 250 demoEvents) : Int) % 2 ^ 32 ∧
    -(2 ^ 31) ≤ toInt32 (matrixCellsSum (rowsSpec demoFuncs.countUMINaive demoChoose 1 250 demoEvents)) ∧
    toInt32 (matrixCellsSum (rowsSpec demoFuncs.countUMINaive demoChoose 1 250 demoEvents)) < 2 ^ 31 ∧
    (2 ^ 31 ≤ matrixCellsSum (rowsSpec demoFuncs.countUMINaive demoChoose 1 250 demoEvents) →
      toInt32 (matrixCellsSum (rowsSpec demoFuncs.countUMINaive demoChoose 1 250 demoEvents)) ≠
        (matrixCellsSum (rowsSpec demoFuncs.countUMINaive demoChoose 1 250 demoEvents) : Int))) :=
  ⟨rfl, by decide, rfl,
    createDataset_total_molecules_int32 demoFuncs demoChoose demoEvents qa0
      "naive" 1 250 demoFuncs.countUMINaive rfl (by decide) rfl⟩
